import Mathlib

/-
Verification of the Boolean-retrieval core (`bool_retr.py`) of the
athjihan/boolean-retrieval repository, against its natural-language
specification.

Modelling conventions (shallow embedding):
* A Python `str` is modelled as `List Char` (`Str`); ASCII suffices for the
  queries and terms of this system.
* A Python `set[str]` is modelled as a duplicate-free `List Str` (`Docs`)
  with membership-based intersection, union and difference; `sorted(list(s))`
  is modelled by an insertion sort under the code-point lexicographic order,
  which is exactly the canonical ascending enumeration Python produces.
* A Python `dict` is modelled as an association list with first-match lookup
  and replace-or-append assignment (`dictGet` / `dictInsert`).
* `str.strip()` is `pyStrip`, `str.lower()` is `pyLower` (ASCII table),
  `sep in s` is `pyContains`, `s.split(sep)` is `pySplit`.
* The external Lucene reader consumed by `build_inverted_index` is modelled
  by a list of per-document fetch outcomes (`DocFetch`), one per internal
  docid, covering the success and failure shapes the Python body
  distinguishes.
-/

namespace BoolRetr

/-- Python strings, modelled as lists of characters. -/
abbrev Str := List Char

/-- Coerce a Lean string literal to the model type. -/
def str (s : String) : Str := s.data

/-- ASCII lowercase table used to model Python `str.lower()`. -/
def lowerMap : List (Char × Char) :=
  [ ('A', 'a'), ('B', 'b'), ('C', 'c'), ('D', 'd'), ('E', 'e'), ('F', 'f'),
    ('G', 'g'), ('H', 'h'), ('I', 'i'), ('J', 'j'), ('K', 'k'), ('L', 'l'),
    ('M', 'm'), ('N', 'n'), ('O', 'o'), ('P', 'p'), ('Q', 'q'), ('R', 'r'),
    ('S', 's'), ('T', 't'), ('U', 'u'), ('V', 'v'), ('W', 'w'), ('X', 'x'),
    ('Y', 'y'), ('Z', 'z') ]

/-- First-match association lookup on a character table. -/
def assocChar : List (Char × Char) → Char → Option Char
  | [], _ => none
  | (k, v) :: rest, c => if k = c then some v else assocChar rest c

/-- Lowercase one character (Python `str.lower()` restricted to ASCII). -/
def lowerChar (c : Char) : Char := (assocChar lowerMap c).getD c

/-- Python `s.lower()`. -/
def pyLower (s : Str) : Str := s.map lowerChar

/-- Python `s.strip()`: drop leading and trailing whitespace. -/
def pyStrip (s : Str) : Str :=
  ((s.dropWhile Char.isWhitespace).reverse.dropWhile Char.isWhitespace).reverse

/-- Locate the first occurrence of `sep` in a string: returns the part
before it and the part after it. -/
def splitFirst (sep : Str) : Str → Option (Str × Str)
  | [] => none
  | c :: cs =>
    if sep.isPrefixOf (c :: cs) then some ([], (c :: cs).drop sep.length)
    else
      match splitFirst sep cs with
      | none => none
      | some (p, q) => some (c :: p, q)

/-- Python `sep in s` (substring containment, for nonempty `sep`). -/
def pyContains (s sep : Str) : Bool := (splitFirst sep s).isSome

/-- Fuel-driven worker for `pySplit`; the fuel is always sufficient when
called through `pySplit`. -/
def pySplitAux (sep : Str) : Nat → Str → List Str
  | 0, s => [s]
  | fuel + 1, s =>
    match splitFirst sep s with
    | none => [s]
    | some (p, q) => p :: pySplitAux sep fuel q

/-- Python `s.split(sep)` for a nonempty separator: split on every
(non-overlapping, leftmost-first) occurrence. -/
def pySplit (sep s : Str) : List Str := pySplitAux sep (s.length + 1) s

/-- A postings set / result set: Python `set[str]` of document ids,
modelled as a duplicate-free list. -/
abbrev Docs := List Str

/-- Python set intersection. -/
def setInter (s t : Docs) : Docs := s.filter (fun x => decide (x ∈ t))

/-- Python set union. -/
def setUnion (s t : Docs) : Docs := s ++ t.filter (fun x => decide (¬ x ∈ s))

/-- Python set difference. -/
def setDiff (s t : Docs) : Docs := s.filter (fun x => decide (¬ x ∈ t))

/-- Python string `<` : lexicographic comparison by code point. -/
def lexLt : Str → Str → Bool
  | [], [] => false
  | [], _ :: _ => true
  | _ :: _, [] => false
  | a :: as, b :: bs => if a < b then true else if b < a then false else lexLt as bs

/-- The reflexive order underlying `lexLt`. -/
def lexLe (a b : Str) : Prop := lexLt b a = false

/-- Insert into an ascending list, keeping it ascending. -/
def insertAsc (x : Str) : List Str → List Str
  | [] => [x]
  | y :: ys => if lexLt x y then x :: y :: ys else y :: insertAsc x ys

/-- Python `sorted(...)` on a list of strings (ascending code-point order). -/
def pySorted (l : List Str) : List Str := l.foldr insertAsc []

/-- The inverted index: Python `dict[str, set[str]]`. -/
abbrev Index := List (Str × Docs)

/-- Python dict lookup (`m[k]` / `k in m`). -/
def dictGet {α : Type} : List (Str × α) → Str → Option α
  | [], _ => none
  | (k2, v) :: rest, k => if k2 = k then some v else dictGet rest k

/-- Python dict assignment `m[k] = v`: replace in place or append. -/
def dictInsert {α : Type} (k : Str) (v : α) : List (Str × α) → List (Str × α)
  | [] => [(k, v)]
  | (k2, v2) :: rest =>
    if k2 = k then (k2, v) :: rest else (k2, v2) :: dictInsert k v rest

/-- Embeds `_get_documents_for_term`: strip and lowercase the term, then
look it up in the inverted index; absent terms give the empty set.  The
Python `.copy()` returns a set equal to the stored one, hence the stored
value itself in this value-semantics model. -/
def getDocumentsForTerm (idx : Index) (term : Str) : Docs :=
  match dictGet idx (pyLower (pyStrip term)) with
  | some s => s
  | none => []

/-- Embeds `_handle_and`: split on every `" and "`, strip each part, and
intersect the postings of all parts left to right. -/
def handleAnd (idx : Index) (q : Str) : Docs :=
  match (pySplit (str " and ") q).map pyStrip with
  | [] => []
  | t :: ts =>
    ts.foldl (fun acc u => setInter acc (getDocumentsForTerm idx u))
      (getDocumentsForTerm idx t)

/-- Embeds `_handle_or`: split on every `" or "`, strip each part, and
union the postings of all parts. -/
def handleOr (idx : Index) (q : Str) : Docs :=
  ((pySplit (str " or ") q).map pyStrip).foldl
    (fun acc u => setUnion acc (getDocumentsForTerm idx u)) []

/-- Embeds `_handle_not`: split on `" not "`; unless exactly two parts
result, return the empty set; otherwise positive postings minus negative
postings. -/
def handleNot (idx : Index) (q : Str) : Docs :=
  match pySplit (str " not ") q with
  | [p, n] =>
    setDiff (getDocumentsForTerm idx (pyStrip p))
      (getDocumentsForTerm idx (pyStrip n))
  | _ => []

/-- Embeds `_handle_and_not`: split on `" and not "`; unless exactly two
parts result, return the empty set; otherwise evaluate the left part (as a
conjunction when it contains `" and "`, else as a single term) minus the
postings of the right part as a single term. -/
def handleAndNot (idx : Index) (q : Str) : Docs :=
  match pySplit (str " and not ") q with
  | [l, n] =>
    let lp := pyStrip l
    let np := pyStrip n
    let pos :=
      if pyContains lp (str " and ") then handleAnd idx lp
      else getDocumentsForTerm idx lp
    setDiff pos (getDocumentsForTerm idx np)
  | _ => []

/-- Embeds `_parse_boolean_query`: lowercase and strip the query, then
dispatch on the first matching operator substring. -/
def parseBooleanQuery (idx : Index) (q : Str) : Docs :=
  let s := pyStrip (pyLower q)
  if pyContains s (str " and not ") then handleAndNot idx s
  else if pyContains s (str " and ") then handleAnd idx s
  else if pyContains s (str " or ") then handleOr idx s
  else if pyContains s (str " not ") then handleNot idx s
  else getDocumentsForTerm idx s

/-- Embeds `search_boolean`: strip the query, return `[]` when empty,
otherwise sort the evaluated result set and truncate to `maxResults`. -/
def searchBoolean (idx : Index) (query : Str) (maxResults : Nat) : List Str :=
  let q := pyStrip query
  if q = [] then []
  else (pySorted (parseBooleanQuery idx q)).take maxResults

/-- `search_boolean` with its default `max_results = 100`. -/
def searchBooleanDefault (idx : Index) (query : Str) : List Str :=
  searchBoolean idx query 100

/-- Modelled from the spec: the Query Evaluator's term-leaf rule
"normalize the term (stem it) and return its postings set, or empty set if
absent from the index", parametric in the externally injected deterministic
stemming function (the stemmer itself is an external collaborator, absent
from src/). -/
def getDocumentsForTermSpec (stem : Str → Str) (idx : Index) (term : Str) : Docs :=
  match dictGet idx (stem (pyLower (pyStrip term))) with
  | some s => s
  | none => []

/-- Modelled from the spec (claim C3 wording): split once on the FIRST
occurrence of `" and not "` into left and right, evaluate the left part as
a conjunction when it contains `" and "` (else as a single term), and
subtract the postings of the right part treated as one single term. -/
def handleAndNotSpecFirst (idx : Index) (q : Str) : Docs :=
  match splitFirst (str " and not ") q with
  | some (l, r) =>
    let lp := pyStrip l
    let rp := pyStrip r
    let pos :=
      if pyContains lp (str " and ") then handleAnd idx lp
      else getDocumentsForTerm idx lp
    setDiff pos (getDocumentsForTerm idx rp)
  | none => []

/-- One per-document outcome of the external Lucene reader consumed by
`build_inverted_index`, covering every control path of the Python body:
an exception before the collection docid is known (`convertErr`), an
exception while fetching the document (`docErr`), a `None` document
(`docNone`), an exception while fetching the term vector after the content
was already stored (`vecErr`), and success (`ok`, with optional contents
and optional term-frequency vector). -/
inductive DocFetch where
  | convertErr (msg : Str)
  | docErr (docid msg : Str)
  | docNone (docid : Str)
  | vecErr (docid : Str) (contents : Option Str) (msg : Str)
  | ok (docid : Str) (contents : Option Str) (vector : Option (List (Str × Nat)))

/-- The builder's state: the inverted index, the document store, and the
log of reported messages (modelling the `print` calls). -/
structure BState where
  invertedIndex : Index
  documents : List (Str × Str)
  log : List Str

/-- Embeds the inner loop of `build_inverted_index`: ensure the term has a
postings set, then add the docid to it. -/
def indexAdd (docid : Str) (term : Str) (idx : Index) : Index :=
  match dictGet idx term with
  | some s => dictInsert term (if docid ∈ s then s else s ++ [docid]) idx
  | none => dictInsert term [docid] idx

/-- Embeds one iteration of the `build_inverted_index` loop. -/
def processDoc (st : BState) : DocFetch → BState
  | .convertErr msg => { st with log := st.log ++ [msg] }
  | .docErr _ msg => { st with log := st.log ++ [msg] }
  | .docNone docid =>
    { st with
      documents := dictInsert docid (str "") st.documents,
      log := st.log ++ [str "Warning: document returned None"] }
  | .vecErr docid contents msg =>
    { st with
      documents := dictInsert docid (contents.getD (str "")) st.documents,
      log := st.log ++ [msg] }
  | .ok docid contents vector =>
    let st2 :=
      { st with documents := dictInsert docid (contents.getD (str "")) st.documents }
    match vector with
    | none => st2
    | some tv =>
      { st2 with
        invertedIndex := tv.foldl (fun m p => indexAdd docid p.1 m) st2.invertedIndex }

/-- Embeds `build_inverted_index`: fold the per-document processing over
the fetch outcomes of all internal docids, starting from empty
structures. -/
def buildInvertedIndex (fetches : List DocFetch) : BState :=
  fetches.foldl processDoc ⟨[], [], []⟩

/-- The retrieval system's state as seen by the query surface. -/
structure RState where
  invertedIndex : Index
  documents : List (Str × Str)

/-- State-threaded embedding of `_get_documents_for_term`: every read of
`self` is routed through the state so that any mutation of
`self.inverted_index` or `self.documents` would show up in the returned
state. -/
def getDocumentsForTermSt (st : RState) (term : Str) : Docs × RState :=
  match dictGet st.invertedIndex (pyLower (pyStrip term)) with
  | some s => (s, st)
  | none => ([], st)

/-- State-threaded embedding of `_handle_and`. -/
def handleAndSt (st : RState) (q : Str) : Docs × RState :=
  match (pySplit (str " and ") q).map pyStrip with
  | [] => ([], st)
  | t :: ts =>
    ts.foldl (fun acc u =>
      let d := getDocumentsForTermSt acc.2 u
      (setInter acc.1 d.1, d.2)) (getDocumentsForTermSt st t)

/-- State-threaded embedding of `_handle_or`. -/
def handleOrSt (st : RState) (q : Str) : Docs × RState :=
  ((pySplit (str " or ") q).map pyStrip).foldl (fun acc u =>
    let d := getDocumentsForTermSt acc.2 u
    (setUnion acc.1 d.1, d.2)) ([], st)

/-- State-threaded embedding of `_handle_not`. -/
def handleNotSt (st : RState) (q : Str) : Docs × RState :=
  match pySplit (str " not ") q with
  | [p, n] =>
    let a := getDocumentsForTermSt st (pyStrip p)
    let b := getDocumentsForTermSt a.2 (pyStrip n)
    (setDiff a.1 b.1, b.2)
  | _ => ([], st)

/-- State-threaded embedding of `_handle_and_not`. -/
def handleAndNotSt (st : RState) (q : Str) : Docs × RState :=
  match pySplit (str " and not ") q with
  | [l, n] =>
    let lp := pyStrip l
    let np := pyStrip n
    let pos :=
      if pyContains lp (str " and ") then handleAndSt st lp
      else getDocumentsForTermSt st lp
    let neg := getDocumentsForTermSt pos.2 np
    (setDiff pos.1 neg.1, neg.2)
  | _ => ([], st)

/-- State-threaded embedding of `_parse_boolean_query`. -/
def parseBooleanQuerySt (st : RState) (q : Str) : Docs × RState :=
  let s := pyStrip (pyLower q)
  if pyContains s (str " and not ") then handleAndNotSt st s
  else if pyContains s (str " and ") then handleAndSt st s
  else if pyContains s (str " or ") then handleOrSt st s
  else if pyContains s (str " not ") then handleNotSt st s
  else getDocumentsForTermSt st s

/-- State-threaded embedding of `search_boolean`. -/
def searchBooleanSt (st : RState) (query : Str) (maxResults : Nat) :
    List Str × RState :=
  let q := pyStrip query
  if q = [] then ([], st)
  else
    let r := parseBooleanQuerySt st q
    ((pySorted r.1).take maxResults, r.2)

/-! ### Character-level lemmas about the ASCII lowercase table -/

theorem assocChar_mem {m : List (Char × Char)} {c d : Char}
    (h : assocChar m c = some d) : (c, d) ∈ m := by
  induction m with
  | nil => simp [assocChar] at h
  | cons kv rest ih =>
    obtain ⟨k, v⟩ := kv
    simp only [assocChar] at h
    by_cases hk : k = c
    · rw [if_pos hk] at h
      subst hk
      cases h
      exact List.mem_cons_self _ _
    · rw [if_neg hk] at h
      exact List.mem_cons_of_mem _ (ih h)

theorem lowerChar_isWhitespace (c : Char) :
    (lowerChar c).isWhitespace = c.isWhitespace := by
  cases h : assocChar lowerMap c with
  | none => simp [lowerChar, h]
  | some d =>
    have hm : (c, d) ∈ lowerMap := assocChar_mem h
    have hfacts : ∀ p ∈ lowerMap,
        (p.1).isWhitespace = false ∧ (p.2).isWhitespace = false := by decide
    have h1 := (hfacts _ hm).1
    have h2 := (hfacts _ hm).2
    simp only [lowerChar, h, Option.getD_some]
    rw [h1, h2]

theorem lowerChar_idem (c : Char) : lowerChar (lowerChar c) = lowerChar c := by
  cases h : assocChar lowerMap c with
  | none => simp [lowerChar, h]
  | some d =>
    have hm : (c, d) ∈ lowerMap := assocChar_mem h
    have hfacts : ∀ p ∈ lowerMap, lowerChar p.2 = p.2 := by decide
    have h1 : lowerChar c = d := by simp [lowerChar, h]
    rw [h1]
    exact hfacts _ hm

theorem ne_space_of_not_ws {c : Char} (h : c.isWhitespace = false) : c ≠ ' ' := by
  intro hc
  subst hc
  exact (by decide : ¬ ((' ' : Char).isWhitespace = false)) h

/-! ### Lemmas about `pyStrip` and `pyLower` -/

theorem head?_dropWhile_not {α : Type} {p : α → Bool} :
    ∀ {l : List α} {c : α}, (l.dropWhile p).head? = some c → p c = false := by
  intro l
  induction l with
  | nil => intro c h; simp [List.dropWhile] at h
  | cons a tl ih =>
    intro c h
    rw [List.dropWhile_cons] at h
    by_cases hp : p a = true
    · rw [if_pos hp] at h
      exact ih h
    · rw [if_neg hp] at h
      simp only [List.head?_cons, Option.some.injEq] at h
      subst h
      exact Bool.not_eq_true _ ▸ hp

theorem dropWhile_eq_self_of_head? {α : Type} {p : α → Bool} {l : List α}
    (h : ∀ c, l.head? = some c → p c = false) : l.dropWhile p = l := by
  cases l with
  | nil => rfl
  | cons a tl =>
    have := h a rfl
    rw [List.dropWhile_cons, if_neg (by simp [this])]

theorem pyStrip_eq_self_of {l : Str}
    (h1 : ∀ c, l.head? = some c → c.isWhitespace = false)
    (h2 : ∀ c, l.getLast? = some c → c.isWhitespace = false) :
    pyStrip l = l := by
  unfold pyStrip
  rw [dropWhile_eq_self_of_head? h1]
  rw [dropWhile_eq_self_of_head? (by
    intro c hc
    rw [List.head?_reverse] at hc
    exact h2 c hc)]
  exact List.reverse_reverse l

theorem pyStrip_eq_self {l : Str} (h : ∀ c ∈ l, c.isWhitespace = false) :
    pyStrip l = l := by
  apply pyStrip_eq_self_of
  · intro c hc
    cases l with
    | nil => simp at hc
    | cons a tl =>
      simp only [List.head?_cons, Option.some.injEq] at hc
      subst hc
      exact h a (List.mem_cons_self _ _)
  · intro c hc
    have hm : c ∈ l := by
      rw [← List.head?_reverse] at hc
      have := List.mem_of_mem_head? hc
      exact List.mem_reverse.mp this
    exact h c hm

theorem pyStrip_idem (l : Str) : pyStrip (pyStrip l) = pyStrip l := by
  have hA : List.dropWhile Char.isWhitespace (pyStrip l) = pyStrip l := by
    apply dropWhile_eq_self_of_head?
    intro c hc
    unfold pyStrip at hc
    rw [List.head?_reverse] at hc
    obtain ⟨t, ht⟩ := List.dropWhile_suffix
      (l := (List.dropWhile Char.isWhitespace l).reverse) (p := Char.isWhitespace)
    have hV : ((List.dropWhile Char.isWhitespace l).reverse).getLast? = some c := by
      rw [← ht, List.getLast?_append, hc]
      rfl
    rw [List.getLast?_reverse] at hV
    exact head?_dropWhile_not hV
  have hB : List.dropWhile Char.isWhitespace (pyStrip l).reverse = (pyStrip l).reverse := by
    apply dropWhile_eq_self_of_head?
    intro c hc
    unfold pyStrip at hc
    rw [List.reverse_reverse] at hc
    exact head?_dropWhile_not hc
  show (((pyStrip l).dropWhile Char.isWhitespace).reverse.dropWhile
      Char.isWhitespace).reverse = pyStrip l
  rw [hA, hB, List.reverse_reverse]

theorem pyStrip_pyLower (l : Str) : pyStrip (pyLower l) = pyLower (pyStrip l) := by
  have hws : (Char.isWhitespace ∘ lowerChar) = Char.isWhitespace :=
    funext lowerChar_isWhitespace
  unfold pyStrip pyLower
  rw [List.dropWhile_map, hws, ← List.map_reverse, List.dropWhile_map, hws,
    ← List.map_reverse]

theorem pyLower_idem (l : Str) : pyLower (pyLower l) = pyLower l := by
  unfold pyLower
  rw [List.map_map, show lowerChar ∘ lowerChar = lowerChar from funext lowerChar_idem]

theorem pyLower_pyStrip_idem (t : Str) :
    pyLower (pyStrip (pyLower (pyStrip t))) = pyLower (pyStrip t) := by
  rw [pyStrip_pyLower, pyStrip_idem, pyLower_idem]

/-! ### Lemmas about `splitFirst`, `pySplit` and `pyContains` -/

theorem splitFirst_some_length {sep : Str} (hsep : sep ≠ []) :
    ∀ {s p q : Str}, splitFirst sep s = some (p, q) → q.length < s.length := by
  intro s
  induction s with
  | nil => intro p q h; simp [splitFirst] at h
  | cons c cs ih =>
    intro p q h
    simp only [splitFirst] at h
    by_cases hpre : sep.isPrefixOf (c :: cs)
    · rw [if_pos hpre] at h
      simp only [Option.some.injEq, Prod.mk.injEq] at h
      obtain ⟨-, hq⟩ := h
      subst hq
      rw [List.length_drop]
      have hpos : 0 < sep.length := List.length_pos.mpr hsep
      simp only [List.length_cons]
      omega
    · rw [if_neg hpre] at h
      cases hm : splitFirst sep cs with
      | none => rw [hm] at h; simp at h
      | some pq =>
        obtain ⟨p2, q2⟩ := pq
        rw [hm] at h
        simp only [Option.some.injEq, Prod.mk.injEq] at h
        obtain ⟨-, hq⟩ := h
        subst hq
        have := ih hm
        simp only [List.length_cons]
        omega

theorem pySplitAux_fuel {sep : Str} (hsep : sep ≠ []) :
    ∀ f1 f2 s, s.length < f1 → s.length < f2 →
      pySplitAux sep f1 s = pySplitAux sep f2 s := by
  intro f1
  induction f1 with
  | zero => intro f2 s h1 h2; exact absurd h1 (Nat.not_lt_zero _)
  | succ f ih =>
    intro f2 s h1 h2
    cases f2 with
    | zero => exact absurd h2 (Nat.not_lt_zero _)
    | succ f2 =>
      simp only [pySplitAux]
      cases hm : splitFirst sep s with
      | none => rfl
      | some pq =>
        obtain ⟨p, q⟩ := pq
        have hq := splitFirst_some_length hsep hm
        dsimp only
        rw [ih f2 q (by omega) (by omega)]

theorem pySplit_eq {sep : Str} (hsep : sep ≠ []) (s : Str) :
    pySplit sep s =
      (match splitFirst sep s with
        | none => [s]
        | some (p, q) => p :: pySplit sep q) := by
  show pySplitAux sep (s.length + 1) s = _
  simp only [pySplitAux]
  cases hm : splitFirst sep s with
  | none => rfl
  | some pq =>
    obtain ⟨p, q⟩ := pq
    have hq := splitFirst_some_length hsep hm
    dsimp only
    rw [pySplitAux_fuel hsep s.length (q.length + 1) q (by omega) (by omega)]
    rfl

theorem pySplit_ne_nil {sep s : Str} (hsep : sep ≠ []) : pySplit sep s ≠ [] := by
  rw [pySplit_eq hsep]
  cases splitFirst sep s with
  | none => simp
  | some pq => obtain ⟨p, q⟩ := pq; simp

theorem pySplit_two {sep : Str} (hsep : sep ≠ []) {s l r : Str}
    (h : pySplit sep s = [l, r]) : splitFirst sep s = some (l, r) := by
  rw [pySplit_eq hsep] at h
  cases hm : splitFirst sep s with
  | none => rw [hm] at h; simp at h
  | some pq =>
    obtain ⟨p, q⟩ := pq
    rw [hm] at h
    injection h with h1 h2
    subst h1
    rw [pySplit_eq hsep] at h2
    cases hm2 : splitFirst sep q with
    | none =>
      rw [hm2] at h2
      injection h2 with h3 h4
      subst h3
      rfl
    | some pq2 =>
      obtain ⟨p2, q2⟩ := pq2
      rw [hm2] at h2
      injection h2 with h3 h4
      exact absurd h4 (pySplit_ne_nil hsep)

theorem splitFirst_none_of_no_space {t : Str} :
    ∀ {w : Str}, (∀ c ∈ w, c ≠ ' ') → splitFirst (' ' :: t) w = none := by
  intro w
  induction w with
  | nil => intro _; rfl
  | cons c cs ih =>
    intro h
    have hc : c ≠ ' ' := h c (List.mem_cons_self _ _)
    have hpre : (' ' :: t).isPrefixOf (c :: cs) = false := by
      simp only [List.isPrefixOf, Bool.and_eq_false_imp]
      intro hbeq
      exact absurd (beq_iff_eq.mp hbeq).symm hc
    simp only [splitFirst, hpre, Bool.false_eq_true, if_false]
    rw [ih (fun d hd => h d (List.mem_cons_of_mem _ hd))]

theorem splitFirst_sep_append {t r : Str} :
    ∀ {w : Str}, (∀ c ∈ w, c ≠ ' ') →
      splitFirst (' ' :: t) (w ++ (' ' :: t) ++ r) = some (w, r) := by
  intro w
  induction w with
  | nil =>
    intro _
    simp only [List.nil_append]
    have hpre : (' ' :: t).isPrefixOf ((' ' :: t) ++ r) = true :=
      List.isPrefixOf_iff_prefix.mpr (List.prefix_append _ _)
    show splitFirst (' ' :: t) (' ' :: (t ++ r)) = some ([], r)
    simp only [splitFirst]
    rw [show (' ' :: (t ++ r)) = ((' ' :: t) ++ r) from rfl, if_pos hpre,
      List.drop_left]
  | cons c cs ih =>
    intro h
    have hc : c ≠ ' ' := h c (List.mem_cons_self _ _)
    have hpre : (' ' :: t).isPrefixOf (c :: (cs ++ (' ' :: t) ++ r)) = false := by
      simp only [List.isPrefixOf, Bool.and_eq_false_imp]
      intro hbeq
      exact absurd (beq_iff_eq.mp hbeq).symm hc
    show splitFirst (' ' :: t) (c :: (cs ++ (' ' :: t) ++ r)) = some (c :: cs, r)
    simp only [splitFirst, hpre, Bool.false_eq_true, if_false]
    rw [ih (fun d hd => h d (List.mem_cons_of_mem _ hd))]

theorem pySplit_sep_append {t r w : Str} (h : ∀ c ∈ w, c ≠ ' ') :
    pySplit (' ' :: t) (w ++ (' ' :: t) ++ r) = w :: pySplit (' ' :: t) r := by
  rw [pySplit_eq (by simp), splitFirst_sep_append h]

theorem pySplit_no_space {t w : Str} (h : ∀ c ∈ w, c ≠ ' ') :
    pySplit (' ' :: t) w = [w] := by
  rw [pySplit_eq (by simp), splitFirst_none_of_no_space h]

/-! ### Dispatch lemmas for `_parse_boolean_query` -/

theorem parse_dispatch_andnot (idx : Index) {q : Str}
    (h : pyContains (pyStrip (pyLower q)) (str " and not ") = true) :
    parseBooleanQuery idx q = handleAndNot idx (pyStrip (pyLower q)) := by
  simp [parseBooleanQuery, h]

theorem parse_dispatch_and (idx : Index) {q : Str}
    (h1 : pyContains (pyStrip (pyLower q)) (str " and not ") = false)
    (h2 : pyContains (pyStrip (pyLower q)) (str " and ") = true) :
    parseBooleanQuery idx q = handleAnd idx (pyStrip (pyLower q)) := by
  simp [parseBooleanQuery, h1, h2]

theorem parse_dispatch_not (idx : Index) {q : Str}
    (h1 : pyContains (pyStrip (pyLower q)) (str " and not ") = false)
    (h2 : pyContains (pyStrip (pyLower q)) (str " and ") = false)
    (h3 : pyContains (pyStrip (pyLower q)) (str " or ") = false)
    (h4 : pyContains (pyStrip (pyLower q)) (str " not ") = true) :
    parseBooleanQuery idx q = handleNot idx (pyStrip (pyLower q)) := by
  simp [parseBooleanQuery, h1, h2, h3, h4]

/-! ### Set-operation lemmas -/

theorem setInter_nil_right (s : Docs) : setInter s [] = [] := by
  apply List.filter_eq_nil_iff.mpr
  intro a _
  simp

theorem setDiff_self (s : Docs) : setDiff s s = [] := by
  apply List.filter_eq_nil_iff.mpr
  intro a ha
  simp [ha]

theorem setDiff_nil (s : Docs) : setDiff s [] = s := by
  unfold setDiff
  apply List.filter_eq_self.mpr
  intro a _
  simp

theorem foldl_inter_nil (f : Str → Docs) (ts : List Str) :
    ts.foldl (fun acc u => setInter acc (f u)) [] = [] := by
  induction ts with
  | nil => rfl
  | cons t ts ih => exact ih

theorem foldl_inter_absorb {f : Str → Docs} {u : Str} :
    ∀ {ts : List Str} (acc : Docs), u ∈ ts → f u = [] →
      ts.foldl (fun acc u => setInter acc (f u)) acc = [] := by
  intro ts
  induction ts with
  | nil => intro acc h; simp at h
  | cons v vs ih =>
    intro acc h hu
    rcases List.mem_cons.mp h with rfl | hv
    · rw [List.foldl_cons, hu, setInter_nil_right]
      exact foldl_inter_nil _ _
    · exact ih _ hv hu

/-! ### Lemmas about the lexicographic order and the insertion sort -/

theorem lexLt_asymm : ∀ {x y : Str}, lexLt x y = true → lexLt y x = false := by
  intro x
  induction x with
  | nil =>
    intro y h
    cases y with
    | nil => simp [lexLt] at h
    | cons b bs => rfl
  | cons a as ih =>
    intro y h
    cases y with
    | nil => simp [lexLt] at h
    | cons b bs =>
      simp only [lexLt] at h ⊢
      by_cases h1 : a < b
      · rw [if_neg (lt_asymm h1), if_pos h1]
      · rw [if_neg h1] at h
        by_cases h2 : b < a
        · rw [if_pos h2] at h
          simp at h
        · rw [if_neg h2] at h
          rw [if_neg h2, if_neg h1]
          exact ih h

theorem lexLt_trans :
    ∀ {x y z : Str}, lexLt x y = true → lexLt y z = true → lexLt x z = true := by
  intro x
  induction x with
  | nil =>
    intro y z hxy hyz
    cases y with
    | nil => simp [lexLt] at hxy
    | cons b bs =>
      cases z with
      | nil => simp [lexLt] at hyz
      | cons c cs => rfl
  | cons a as ih =>
    intro y z hxy hyz
    cases y with
    | nil => simp [lexLt] at hxy
    | cons b bs =>
      cases z with
      | nil => simp [lexLt] at hyz
      | cons c cs =>
        simp only [lexLt] at hxy hyz ⊢
        by_cases h1 : a < b
        · by_cases h2 : b < c
          · rw [if_pos (lt_trans h1 h2)]
          · by_cases h3 : c < b
            · rw [if_neg h2, if_pos h3] at hyz
              simp at hyz
            · have hbc : b = c := le_antisymm (not_lt.mp h3) (not_lt.mp h2)
              subst hbc
              rw [if_pos h1]
        · by_cases h2 : b < a
          · rw [if_neg h1, if_pos h2] at hxy
            simp at hxy
          · have hab : a = b := le_antisymm (not_lt.mp h2) (not_lt.mp h1)
            subst hab
            rw [if_neg h1, if_neg h2] at hxy
            by_cases h3 : a < c
            · rw [if_pos h3]
            · by_cases h4 : c < a
              · rw [if_neg h3, if_pos h4] at hyz
                simp at hyz
              · rw [if_neg h3, if_neg h4] at hyz ⊢
                exact ih hxy hyz

theorem mem_insertAsc {x z : Str} :
    ∀ {l : List Str}, z ∈ insertAsc x l → z = x ∨ z ∈ l := by
  intro l
  induction l with
  | nil =>
    intro h
    simp [insertAsc] at h
    exact Or.inl h
  | cons y ys ih =>
    intro h
    simp only [insertAsc] at h
    by_cases hlt : lexLt x y = true
    · rw [if_pos hlt] at h
      rcases List.mem_cons.mp h with rfl | h2
      · exact Or.inl rfl
      · exact Or.inr h2
    · rw [if_neg hlt] at h
      rcases List.mem_cons.mp h with rfl | h2
      · exact Or.inr (List.mem_cons_self _ _)
      · rcases ih h2 with rfl | h3
        · exact Or.inl rfl
        · exact Or.inr (List.mem_cons_of_mem _ h3)

theorem sorted_insertAsc {x : Str} :
    ∀ {l : List Str}, List.Sorted lexLe l → List.Sorted lexLe (insertAsc x l) := by
  intro l
  induction l with
  | nil => intro _; simp [insertAsc]
  | cons y ys ih =>
    intro hs
    obtain ⟨hy, hys⟩ := List.sorted_cons.mp hs
    simp only [insertAsc]
    by_cases hlt : lexLt x y = true
    · rw [if_pos hlt]
      apply List.sorted_cons.mpr
      refine ⟨?_, hs⟩
      intro b hb
      rcases List.mem_cons.mp hb with rfl | hb2
      · exact lexLt_asymm hlt
      · have hyb := hy b hb2
        show lexLt b x = false
        by_contra hbx
        have hbx2 : lexLt b x = true := by
          revert hbx
          cases lexLt b x <;> simp
        have htr := lexLt_trans hbx2 hlt
        unfold lexLe at hyb
        rw [htr] at hyb
        simp at hyb
    · rw [if_neg hlt]
      apply List.sorted_cons.mpr
      refine ⟨?_, ih hys⟩
      intro b hb
      rcases mem_insertAsc hb with rfl | hb2
      · show lexLt b y = false
        revert hlt
        cases lexLt b y <;> simp
      · exact hy b hb2

theorem sorted_pySorted (l : List Str) : List.Sorted lexLe (pySorted l) := by
  unfold pySorted
  induction l with
  | nil => simp
  | cons a tl ih =>
    rw [List.foldr_cons]
    exact sorted_insertAsc ih

/-! ### Fallback lemmas for the two-part splits -/

theorem handleNot_ne_two {idx : Index} {s : Str}
    (h : (pySplit (str " not ") s).length ≠ 2) : handleNot idx s = [] := by
  unfold handleNot
  obtain ⟨L, hE⟩ : ∃ L, pySplit (str " not ") s = L := ⟨_, rfl⟩
  rw [hE] at h ⊢
  rcases L with _ | ⟨a, _ | ⟨b, _ | ⟨c, rest⟩⟩⟩
  · rfl
  · rfl
  · simp at h
  · rfl

theorem handleAndNot_ne_two {idx : Index} {s : Str}
    (h : (pySplit (str " and not ") s).length ≠ 2) : handleAndNot idx s = [] := by
  unfold handleAndNot
  obtain ⟨L, hE⟩ : ∃ L, pySplit (str " and not ") s = L := ⟨_, rfl⟩
  rw [hE] at h ⊢
  rcases L with _ | ⟨a, _ | ⟨b, _ | ⟨c, rest⟩⟩⟩
  · rfl
  · rfl
  · simp at h
  · rfl

/-! ### Lemmas about the index builder -/

theorem processDoc_congr (f : DocFetch) (s1 s2 : BState)
    (h1 : s1.invertedIndex = s2.invertedIndex) (h2 : s1.documents = s2.documents) :
    (processDoc s1 f).invertedIndex = (processDoc s2 f).invertedIndex
    ∧ (processDoc s1 f).documents = (processDoc s2 f).documents := by
  cases f with
  | convertErr msg => exact ⟨h1, h2⟩
  | docErr docid msg => exact ⟨h1, h2⟩
  | docNone docid => exact ⟨h1, by simp [processDoc, h2]⟩
  | vecErr docid contents msg => exact ⟨h1, by simp [processDoc, h2]⟩
  | ok docid contents vector =>
    cases vector with
    | none => exact ⟨h1, by simp [processDoc, h2]⟩
    | some tv => exact ⟨by simp [processDoc, h1], by simp [processDoc, h2]⟩

theorem foldl_processDoc_congr :
    ∀ (l : List DocFetch) (s1 s2 : BState),
      s1.invertedIndex = s2.invertedIndex → s1.documents = s2.documents →
      (List.foldl processDoc s1 l).invertedIndex
          = (List.foldl processDoc s2 l).invertedIndex
      ∧ (List.foldl processDoc s1 l).documents
          = (List.foldl processDoc s2 l).documents := by
  intro l
  induction l with
  | nil => intro s1 s2 h1 h2; exact ⟨h1, h2⟩
  | cons f fs ih =>
    intro s1 s2 h1 h2
    have hstep := processDoc_congr f s1 s2 h1 h2
    exact ih _ _ hstep.1 hstep.2

theorem processDoc_log_grows (s : BState) (f : DocFetch) :
    s.log <+: (processDoc s f).log := by
  cases f with
  | convertErr msg => exact List.prefix_append _ _
  | docErr docid msg => exact List.prefix_append _ _
  | docNone docid => exact List.prefix_append _ _
  | vecErr docid contents msg => exact List.prefix_append _ _
  | ok docid contents vector =>
    cases vector with
    | none => exact List.prefix_rfl
    | some tv => exact List.prefix_rfl

theorem foldl_log_grows :
    ∀ (l : List DocFetch) (s : BState), s.log <+: (List.foldl processDoc s l).log := by
  intro l
  induction l with
  | nil => intro s; exact List.prefix_rfl
  | cons f fs ih =>
    intro s
    exact (processDoc_log_grows s f).trans (ih _)

/-! ### Frame lemmas for the state-threaded query embedding -/

theorem getDocumentsForTermSt_frame (st : RState) (t : Str) :
    (getDocumentsForTermSt st t).2 = st := by
  unfold getDocumentsForTermSt
  split <;> rfl

theorem foldlAndSt_frame (ts : List Str) :
    ∀ acc : Docs × RState,
      (ts.foldl (fun acc u =>
        let d := getDocumentsForTermSt acc.2 u
        (setInter acc.1 d.1, d.2)) acc).2 = acc.2 := by
  induction ts with
  | nil => intro acc; rfl
  | cons u us ih =>
    intro acc
    rw [List.foldl_cons, ih]
    exact getDocumentsForTermSt_frame _ _

theorem foldlOrSt_frame (ts : List Str) :
    ∀ acc : Docs × RState,
      (ts.foldl (fun acc u =>
        let d := getDocumentsForTermSt acc.2 u
        (setUnion acc.1 d.1, d.2)) acc).2 = acc.2 := by
  induction ts with
  | nil => intro acc; rfl
  | cons u us ih =>
    intro acc
    rw [List.foldl_cons, ih]
    exact getDocumentsForTermSt_frame _ _

theorem handleAndSt_frame (st : RState) (q : Str) : (handleAndSt st q).2 = st := by
  unfold handleAndSt
  split
  · rfl
  · rw [foldlAndSt_frame]
    exact getDocumentsForTermSt_frame _ _

theorem handleOrSt_frame (st : RState) (q : Str) : (handleOrSt st q).2 = st := by
  unfold handleOrSt
  rw [foldlOrSt_frame]

theorem handleNotSt_frame (st : RState) (q : Str) : (handleNotSt st q).2 = st := by
  unfold handleNotSt
  split
  · show (getDocumentsForTermSt (getDocumentsForTermSt st _).2 _).2 = st
    rw [getDocumentsForTermSt_frame, getDocumentsForTermSt_frame]
  · rfl

theorem handleAndNotSt_frame (st : RState) (q : Str) :
    (handleAndNotSt st q).2 = st := by
  unfold handleAndNotSt
  split
  · dsimp only
    rw [getDocumentsForTermSt_frame]
    split
    · exact handleAndSt_frame _ _
    · exact getDocumentsForTermSt_frame _ _
  · rfl

theorem parseBooleanQuerySt_frame (st : RState) (q : Str) :
    (parseBooleanQuerySt st q).2 = st := by
  simp only [parseBooleanQuerySt]
  split_ifs
  · exact handleAndNotSt_frame _ _
  · exact handleAndSt_frame _ _
  · exact handleOrSt_frame _ _
  · exact handleNotSt_frame _ _
  · exact getDocumentsForTermSt_frame _ _

theorem pyStrip_sandwich {x m : Str} (hx : x ≠ [])
    (h : ∀ c ∈ x, c.isWhitespace = false) :
    pyStrip (x ++ m ++ x) = x ++ m ++ x := by
  apply pyStrip_eq_self_of
  · intro c hc
    rcases x with _ | ⟨a, tl⟩
    · exact absurd rfl hx
    · simp only [List.cons_append, List.head?_cons, Option.some.injEq] at hc
      subst hc
      exact h a (List.mem_cons_self _ _)
  · intro c hc
    rw [List.getLast?_append, List.getLast?_eq_getLast x hx] at hc
    have h2 : some (x.getLast hx) = some c := hc
    injection h2 with h3
    subst h3
    exact h _ (List.getLast_mem hx)

/-! ### The claims -/

/-- C1, counterexample: on the postings set containing exactly d2, d15 and
d9, `search_boolean` returns the lexicographically sorted list
["d15", "d2", "d9"], not the numerically sorted ["d2", "d9", "d15"] the
claim requires. -/
theorem claim1_counterexample :
    searchBooleanDefault [(str "cat", [str "d2", str "d15", str "d9"])] (str "cat")
      = [str "d15", str "d2", str "d9"]
    ∧ searchBooleanDefault [(str "cat", [str "d2", str "d15", str "d9"])] (str "cat")
      ≠ [str "d2", str "d9", str "d15"] := by decide

/-- C1, amended: for every query, the formatted output of `search_boolean`
is sorted in plain lexicographic (code-point) string order of the document
ids — not by the embedded numeric value — and is truncated to
`max_results`, whose default is 100. -/
theorem claim1_sorted_lex_truncated (idx : Index) (q : Str) (n : Nat) :
    List.Sorted lexLe (searchBoolean idx q n)
    ∧ (searchBoolean idx q n).length ≤ n
    ∧ searchBooleanDefault idx q = searchBoolean idx q 100 := by
  refine ⟨?_, ?_, rfl⟩
  · simp only [searchBoolean]
    split_ifs
    · exact List.sorted_nil
    · exact List.Pairwise.sublist (List.take_sublist _ _) (sorted_pySorted _)
  · simp only [searchBoolean]
    split_ifs
    · simp
    · rw [List.length_take]
      exact min_le_left _ _

/-- C2, counterexample: the query-side lookup of `_get_documents_for_term`
does not stem.  With the index mapping the stem "dog" to d2 (as index-time
stemming produces) and a stemmer that maps "dogs" to "dog" (as Porter
does), the code's lookup of "dogs" returns the empty set while the
spec-mandated stem-then-look-up returns the postings of "dog". -/
theorem claim2_counterexample :
    getDocumentsForTerm [(str "dog", [str "d2"])] (str "dogs") = []
    ∧ getDocumentsForTermSpec (fun s => if s = str "dogs" then str "dog" else s)
        [(str "dog", [str "d2"])] (str "dogs") = [str "d2"]
    ∧ getDocumentsForTerm [(str "dog", [str "d2"])] (str "dogs")
      ≠ getDocumentsForTermSpec (fun s => if s = str "dogs" then str "dog" else s)
        [(str "dog", [str "d2"])] (str "dogs") := by decide

/-- C2, amended: the evaluator trims and lowercases the raw query term and
looks it up directly — it coincides with the spec's stem-then-look-up rule
exactly for the identity stemmer (no stemming is applied at query time) —
and a term whose trimmed, lowercased form is absent from the index yields
the empty set. -/
theorem claim2_no_stemming (idx : Index) (t : Str) :
    getDocumentsForTerm idx t = getDocumentsForTermSpec (fun s => s) idx t
    ∧ (dictGet idx (pyLower (pyStrip t)) = none → getDocumentsForTerm idx t = []) := by
  constructor
  · rfl
  · intro h
    unfold getDocumentsForTerm
    rw [h]

/-- C2, witness: the amended theorem applied to a concrete index and an
absent term. -/
theorem claim2_witness :
    getDocumentsForTerm [(str "dog", [str "d2"])] (str "cat") = [] :=
  (claim2_no_stemming [(str "dog", [str "d2"])] (str "cat")).2 (by decide)

/-- C3, counterexample: on "a and not b and not c" (two occurrences of
" and not ") the code splits on ALL occurrences, gets three parts, and
returns the empty set, while the claim's split-once-on-first-occurrence
evaluation returns the postings of "a". -/
theorem claim3_counterexample :
    parseBooleanQuery [(str "a", [str "d1"])] (str "a and not b and not c") = []
    ∧ handleAndNotSpecFirst [(str "a", [str "d1"])]
        (pyStrip (pyLower (str "a and not b and not c"))) = [str "d1"]
    ∧ parseBooleanQuery [(str "a", [str "d1"])] (str "a and not b and not c")
      ≠ handleAndNotSpecFirst [(str "a", [str "d1"])]
          (pyStrip (pyLower (str "a and not b and not c"))) := by decide

/-- C3, amended: a query whose case-folded form contains " and not " is
split on ALL occurrences; when exactly two parts result (a single
occurrence) the evaluation agrees with the claim's
split-on-first-occurrence description (left part as conjunction or single
term, minus the right part as one single term); with more than one
occurrence the result is the empty set. -/
theorem claim3_split_all_occurrences (idx : Index) (q : Str)
    (hc : pyContains (pyStrip (pyLower q)) (str " and not ") = true) :
    (∀ l r, pySplit (str " and not ") (pyStrip (pyLower q)) = [l, r] →
        parseBooleanQuery idx q = handleAndNotSpecFirst idx (pyStrip (pyLower q)))
    ∧ ((pySplit (str " and not ") (pyStrip (pyLower q))).length ≠ 2 →
        parseBooleanQuery idx q = []) := by
  have hp := parse_dispatch_andnot idx hc
  constructor
  · intro l r h2
    rw [hp]
    unfold handleAndNot handleAndNotSpecFirst
    rw [h2, pySplit_two (by decide) h2]
  · intro hlen
    rw [hp]
    exact handleAndNot_ne_two hlen

/-- C3, witness: the amended theorem applied to the single-occurrence
query "a AND NOT b". -/
theorem claim3_witness :
    parseBooleanQuery [(str "a", [str "d1"])] (str "a AND NOT b")
      = handleAndNotSpecFirst [(str "a", [str "d1"])]
          (pyStrip (pyLower (str "a AND NOT b"))) :=
  (claim3_split_all_occurrences [(str "a", [str "d1"])] (str "a AND NOT b")
      (by decide)).1 (str "a") (str "b") (by decide)

/-- C4: a query that strips to the empty string returns the empty result
list, and a query dispatched to the NOT handler whose split on " not "
does not yield exactly two parts also returns the empty result list; the
embedding is total, so no error is ever raised. -/
theorem claim4_malformed_empty (idx : Index) (q : Str) (n : Nat) :
    (pyStrip q = [] → searchBoolean idx q n = [])
    ∧ (pyContains (pyStrip (pyLower (pyStrip q))) (str " and not ") = false →
       pyContains (pyStrip (pyLower (pyStrip q))) (str " and ") = false →
       pyContains (pyStrip (pyLower (pyStrip q))) (str " or ") = false →
       pyContains (pyStrip (pyLower (pyStrip q))) (str " not ") = true →
       (pySplit (str " not ") (pyStrip (pyLower (pyStrip q)))).length ≠ 2 →
       searchBoolean idx q n = []) := by
  constructor
  · intro h
    simp [searchBoolean, h]
  · intro h1 h2 h3 h4 h5
    by_cases hq : pyStrip q = []
    · simp [searchBoolean, hq]
    · simp only [searchBoolean]
      rw [if_neg hq, parse_dispatch_not idx h1 h2 h3 h4, handleNot_ne_two h5]
      exact List.take_nil

/-- C4, witness: the theorem applied to the whitespace query and to
"a not b not c", whose split on " not " has three parts. -/
theorem claim4_witness :
    searchBoolean [] (str "   ") 5 = []
    ∧ searchBoolean [(str "a", [str "d1"])] (str "a not b not c") 100 = [] :=
  ⟨(claim4_malformed_empty [] (str "   ") 5).1 (by decide),
   (claim4_malformed_empty [(str "a", [str "d1"])] (str "a not b not c") 100).2
     (by decide) (by decide) (by decide) (by decide) (by decide)⟩

/-- C5, counterexample: with "neural" indexed (as in the reference
corpus, document d6), the query "neural AND NOT (bm25 OR tf-idf)" returns
the postings of "neural" — a non-empty result — even though the
parenthesized part matches no indexed term; the claim's asserted empty
overall result is wrong. -/
theorem claim5_counterexample :
    searchBoolean [(str "neural", [str "d6"])]
      (str "neural AND NOT (bm25 OR tf-idf)") 100 = [str "d6"]
    ∧ dictGet [(str "neural", [str "d6"])] (str "(bm25 or tf-idf)") = none
    ∧ searchBoolean [(str "neural", [str "d6"])]
      (str "neural AND NOT (bm25 OR tf-idf)") 100 ≠ [] := by decide

/-- C5, amended: for the query "neural AND NOT (bm25 OR tf-idf)", the
dispatch looks up the parenthesized part verbatim; provided that literal
string is not an index key, its postings set is empty, and the whole query
returns exactly the (sorted, truncated) postings of the term "neural" —
empty only when "neural" itself is absent from the index. -/
theorem claim5_neural_postings (idx : Index) (n : Nat)
    (h : dictGet idx (str "(bm25 or tf-idf)") = none) :
    searchBoolean idx (str "neural AND NOT (bm25 OR tf-idf)") n
      = (pySorted (getDocumentsForTerm idx (str "neural"))).take n := by
  have h1 : searchBoolean idx (str "neural AND NOT (bm25 OR tf-idf)") n
      = (pySorted (setDiff (getDocumentsForTerm idx (str "neural"))
          (getDocumentsForTerm idx (str "(bm25 or tf-idf)")))).take n := rfl
  have h2 : getDocumentsForTerm idx (str "(bm25 or tf-idf)") = [] := by
    unfold getDocumentsForTerm
    rw [show pyLower (pyStrip (str "(bm25 or tf-idf)"))
        = str "(bm25 or tf-idf)" from rfl, h]
  rw [h1, h2, setDiff_nil]

/-- C5, witness: the amended theorem applied to the index mapping
"neural" to d6. -/
theorem claim5_witness :
    searchBoolean [(str "neural", [str "d6"])]
      (str "neural AND NOT (bm25 OR tf-idf)") 100
      = (pySorted (getDocumentsForTerm [(str "neural", [str "d6"])]
          (str "neural"))).take 100 :=
  claim5_neural_postings [(str "neural", [str "d6"])] 100 (by decide)

/-- C6, counterexample: the code never records an empty-content entry for
a document whose processing raises.  A document whose fetch raises is
skipped entirely — the document store stays empty, with no empty-content
entry for the failing docid (first two conjuncts) — and a document whose
term-vector fetch raises keeps the content entry already stored, which is
the fetched content, not the empty string (last conjunct); the failure is
reported in the log in both cases. -/
theorem claim6_counterexample :
    (buildInvertedIndex [DocFetch.docErr (str "d1") (str "boom")]).documents = []
    ∧ dictGet (buildInvertedIndex [DocFetch.docErr (str "d1") (str "boom")]).documents
        (str "d1") = none
    ∧ (buildInvertedIndex [DocFetch.docErr (str "d1") (str "boom")]).log
        = [str "boom"]
    ∧ (buildInvertedIndex
        [DocFetch.vecErr (str "d1") (some (str "hello")) (str "boom")]).documents
        = [(str "d1", str "hello")] := by decide

/-- C6, amended: every per-document processing failure is reported (its
message appears in the log) and indexing of the remaining corpus continues
— the build never aborts, and the failing document never contributes to
the inverted index.  Its document-store effect depends on where the
failure strikes: a failure before the content is stored (while resolving
the docid, or while fetching the document) leaves NO store entry at all —
not an empty-content one — and the build proceeds exactly as if the
document were absent (first two conjunct groups); a failure while fetching
the term vector, which in the code raises only after the content was
already stored, leaves the store and index exactly as if the document had
been fetched successfully with no term vector, so the entry holds the
fetched content — empty only when that content was None (last conjunct
group). -/
theorem claim6_skip_and_continue (pre : List DocFetch) (docid msg : Str)
    (contents : Option Str) (post : List DocFetch) :
    ((buildInvertedIndex (pre ++ DocFetch.docErr docid msg :: post)).invertedIndex
        = (buildInvertedIndex (pre ++ post)).invertedIndex
      ∧ (buildInvertedIndex (pre ++ DocFetch.docErr docid msg :: post)).documents
        = (buildInvertedIndex (pre ++ post)).documents
      ∧ msg ∈ (buildInvertedIndex (pre ++ DocFetch.docErr docid msg :: post)).log)
    ∧ ((buildInvertedIndex (pre ++ DocFetch.convertErr msg :: post)).invertedIndex
        = (buildInvertedIndex (pre ++ post)).invertedIndex
      ∧ (buildInvertedIndex (pre ++ DocFetch.convertErr msg :: post)).documents
        = (buildInvertedIndex (pre ++ post)).documents
      ∧ msg ∈ (buildInvertedIndex (pre ++ DocFetch.convertErr msg :: post)).log)
    ∧ ((buildInvertedIndex
          (pre ++ DocFetch.vecErr docid contents msg :: post)).invertedIndex
        = (buildInvertedIndex
            (pre ++ DocFetch.ok docid contents none :: post)).invertedIndex
      ∧ (buildInvertedIndex
          (pre ++ DocFetch.vecErr docid contents msg :: post)).documents
        = (buildInvertedIndex
            (pre ++ DocFetch.ok docid contents none :: post)).documents
      ∧ msg ∈ (buildInvertedIndex
          (pre ++ DocFetch.vecErr docid contents msg :: post)).log) := by
  refine ⟨?_, ?_, ?_⟩
  · unfold buildInvertedIndex
    rw [List.foldl_append, List.foldl_append, List.foldl_cons]
    have hcongr := foldl_processDoc_congr post
      (processDoc (List.foldl processDoc ⟨[], [], []⟩ pre)
        (DocFetch.docErr docid msg))
      (List.foldl processDoc ⟨[], [], []⟩ pre) rfl rfl
    refine ⟨hcongr.1, hcongr.2, ?_⟩
    apply (foldl_log_grows post _).subset
    show msg ∈ (List.foldl processDoc ⟨[], [], []⟩ pre).log ++ [msg]
    exact List.mem_append_right _ (List.mem_singleton.mpr rfl)
  · unfold buildInvertedIndex
    rw [List.foldl_append, List.foldl_append, List.foldl_cons]
    have hcongr := foldl_processDoc_congr post
      (processDoc (List.foldl processDoc ⟨[], [], []⟩ pre)
        (DocFetch.convertErr msg))
      (List.foldl processDoc ⟨[], [], []⟩ pre) rfl rfl
    refine ⟨hcongr.1, hcongr.2, ?_⟩
    apply (foldl_log_grows post _).subset
    show msg ∈ (List.foldl processDoc ⟨[], [], []⟩ pre).log ++ [msg]
    exact List.mem_append_right _ (List.mem_singleton.mpr rfl)
  · unfold buildInvertedIndex
    rw [List.foldl_append, List.foldl_append, List.foldl_cons, List.foldl_cons]
    have hcongr := foldl_processDoc_congr post
      (processDoc (List.foldl processDoc ⟨[], [], []⟩ pre)
        (DocFetch.vecErr docid contents msg))
      (processDoc (List.foldl processDoc ⟨[], [], []⟩ pre)
        (DocFetch.ok docid contents none)) rfl rfl
    refine ⟨hcongr.1, hcongr.2, ?_⟩
    apply (foldl_log_grows post _).subset
    show msg ∈ (List.foldl processDoc ⟨[], [], []⟩ pre).log ++ [msg]
    exact List.mem_append_right _ (List.mem_singleton.mpr rfl)

/-- C7: a query containing " and " but not " and not " is split on all
occurrences of " and "; the result is the left-to-right intersection of
the single-term postings lookups of the stripped parts, and it is empty
whenever any part's postings set is empty. -/
theorem claim7_and_intersection (idx : Index) (q t : Str) (ts : List Str)
    (h1 : pyContains (pyStrip (pyLower q)) (str " and not ") = false)
    (h2 : pyContains (pyStrip (pyLower q)) (str " and ") = true)
    (h3 : (pySplit (str " and ") (pyStrip (pyLower q))).map pyStrip = t :: ts) :
    parseBooleanQuery idx q
      = ts.foldl (fun acc u => setInter acc (getDocumentsForTerm idx u))
          (getDocumentsForTerm idx t)
    ∧ (∀ u ∈ t :: ts, getDocumentsForTerm idx u = [] →
        parseBooleanQuery idx q = []) := by
  have hp := parse_dispatch_and idx h1 h2
  have hh : handleAnd idx (pyStrip (pyLower q))
      = ts.foldl (fun acc u => setInter acc (getDocumentsForTerm idx u))
          (getDocumentsForTerm idx t) := by
    unfold handleAnd
    rw [h3]
  constructor
  · rw [hp, hh]
  · intro u hu hu0
    rw [hp, hh]
    rcases List.mem_cons.mp hu with rfl | hmem
    · rw [hu0]
      exact foldl_inter_nil _ _
    · exact foldl_inter_absorb _ hmem hu0

/-- C7, witness: the theorem applied to "dog AND cat" over a concrete
index, giving the intersection of the two postings sets. -/
theorem claim7_witness :
    parseBooleanQuery [(str "dog", [str "d2", str "d7"]), (str "cat", [str "d7"])]
      (str "dog AND cat") = [str "d7"] := by
  have h := (claim7_and_intersection
    [(str "dog", [str "d2", str "d7"]), (str "cat", [str "d7"])]
    (str "dog AND cat") (str "dog") [str "cat"]
    (by decide) (by decide) (by decide)).1
  rw [h]
  decide

/-- C8: for every whitespace-free nonempty term a, present in the index or
not, the query "a AND NOT a" evaluates to the empty result: both sides of
the AND NOT split normalize to the same term, and the set difference of a
postings set with itself is empty. -/
theorem claim8_and_not_self_empty (idx : Index) (a : Str) (n : Nat)
    (ha : a ≠ []) (hw : ∀ c ∈ a, c.isWhitespace = false) :
    searchBoolean idx (a ++ str " AND NOT " ++ a) n = [] := by
  have hq : pyStrip (a ++ str " AND NOT " ++ a) = a ++ str " AND NOT " ++ a :=
    pyStrip_sandwich ha hw
  have hwne : pyLower a ≠ [] := by
    intro h0
    exact ha (List.map_eq_nil_iff.mp h0)
  have hwws : ∀ c ∈ pyLower a, c.isWhitespace = false := by
    intro c hc
    rcases List.mem_map.mp hc with ⟨d, hd, rfl⟩
    rw [lowerChar_isWhitespace]
    exact hw d hd
  have hwsp : ∀ c ∈ pyLower a, c ≠ ' ' := fun c hc => ne_space_of_not_ws (hwws c hc)
  have hlow : pyLower (a ++ str " AND NOT " ++ a)
      = pyLower a ++ str " and not " ++ pyLower a := by
    unfold pyLower
    rw [List.map_append, List.map_append]
    rw [show List.map lowerChar (str " AND NOT ") = str " and not " from by decide]
  have hslow : pyStrip (pyLower (a ++ str " AND NOT " ++ a))
      = pyLower a ++ str " and not " ++ pyLower a := by
    rw [hlow]
    exact pyStrip_sandwich hwne hwws
  have hcont : pyContains (pyLower a ++ str " and not " ++ pyLower a)
      (str " and not ") = true := by
    unfold pyContains
    rw [show str " and not " = ' ' :: str "and not " from rfl,
      splitFirst_sep_append hwsp]
    rfl
  have hparse : parseBooleanQuery idx (a ++ str " AND NOT " ++ a)
      = handleAndNot idx (pyLower a ++ str " and not " ++ pyLower a) := by
    rw [parse_dispatch_andnot idx (by rw [hslow]; exact hcont), hslow]
  have hsplit : pySplit (str " and not ")
      (pyLower a ++ str " and not " ++ pyLower a) = [pyLower a, pyLower a] := by
    rw [show str " and not " = ' ' :: str "and not " from rfl,
      pySplit_sep_append hwsp, pySplit_no_space hwsp]
  have hnand : pyContains (pyLower a) (str " and ") = false := by
    unfold pyContains
    rw [show str " and " = ' ' :: str "and " from rfl,
      splitFirst_none_of_no_space hwsp]
    rfl
  have hAN : handleAndNot idx (pyLower a ++ str " and not " ++ pyLower a) = [] := by
    unfold handleAndNot
    rw [hsplit]
    simp [pyStrip_eq_self hwws, hnand, setDiff_self]
  have hqne : a ++ str " AND NOT " ++ a ≠ [] := by
    intro h0
    rcases List.append_eq_nil.mp h0 with ⟨h0l, -⟩
    rcases List.append_eq_nil.mp h0l with ⟨h0a, -⟩
    exact ha h0a
  simp only [searchBoolean]
  rw [hq, if_neg hqne, hparse, hAN]
  exact List.take_nil

/-- C8, witness: the theorem applied to the term "cat" over a concrete
index containing "cat". -/
theorem claim8_witness :
    searchBoolean [(str "cat", [str "d7"])]
      (str "cat" ++ str " AND NOT " ++ str "cat") 100 = [] :=
  claim8_and_not_self_empty [(str "cat", [str "d7"])] (str "cat") 100
    (by decide) (by decide)

/-- C9: query evaluation never mutates the retrieval state — the
state-threaded embedding of `search_boolean`, in which every read of the
inverted index and the document store is routed through the state, returns
the state unchanged for every query and result bound. -/
theorem claim9_query_frame (st : RState) (q : Str) (n : Nat) :
    (searchBooleanSt st q n).2 = st := by
  simp only [searchBooleanSt]
  split_ifs
  · rfl
  · exact parseBooleanQuerySt_frame _ _

/-- C10: the single-term postings lookup is invariant under its own
normalization — looking up t returns exactly the same set as looking up
lowercase(trim(t)). -/
theorem claim10_lookup_normalized (idx : Index) (t : Str) :
    getDocumentsForTerm idx t = getDocumentsForTerm idx (pyLower (pyStrip t)) := by
  unfold getDocumentsForTerm
  rw [pyLower_pyStrip_idem]

end BoolRetr
